import Mathlib

/- Verification development for the BAJC report generator
   (src/BAJCReportGenerator.py).  The survey pipeline is shallowly embedded:
   a pandas column is a `List String` of cell values, a staff-report table is
   an ordered association list from column label to cell list, and the
   campus-rep table is a rectangular grid with a header row.  Python
   `str.strip()` is modelled by `pyStrip` (ASCII whitespace), the substring
   test `x in s` by `pyIn`, `str.split(" - ")[-1]` by `metricName`, decimal
   `str(n)` by `natToDec`, and `re.match(r"(.*?)\s*\[(.*?)\]", col)` by
   `findMatch`, which reproduces the lazy-group backtracking semantics of the
   Python regex engine (`.` does not match a newline, `\s` does).  Matplotlib
   bar geometry is modelled over `ℚ` (the source arithmetic on positions is
   exact decimal).  File and Streamlit side effects of the campus-rep report
   are modelled by the `ReportOutcome` type. -/

namespace BAJCReport

/-- Python `str.strip()` on the character list: drop ASCII whitespace from
both ends. -/
def stripList (l : List Char) : List Char :=
  ((l.dropWhile Char.isWhitespace).reverse.dropWhile Char.isWhitespace).reverse

/-- Python `str(val).strip()` as used in `calculate_likert_counts`
(source line 192). -/
def pyStrip (s : String) : String := String.mk (stripList s.data)

/-- Bool test that `pat` is a leading segment of `s`. -/
def isPrefAux : List Char → List Char → Bool
  | [], _ => true
  | _ :: _, [] => false
  | a :: as, b :: bs => a == b && isPrefAux as bs

/-- Bool test that `pat` occurs contiguously inside `s`. -/
def hasSubAux (pat : List Char) : List Char → Bool
  | [] => pat.isEmpty
  | c :: rest => isPrefAux pat (c :: rest) || hasSubAux pat rest

/-- Python `needle in hay` on strings (source line 180: `staff_name in col`). -/
def pyIn (needle hay : String) : Bool := hasSubAux needle.data hay.data

/-- The separator `" - "` of the normalized column labels. -/
def sepChars : List Char := [' ', '-', ' ']

/-- Python `s.split(" - ")`: left-to-right non-overlapping split, keeping
empty pieces.  Fuel-driven so that it reduces in the kernel; the wrapper
always supplies enough fuel. -/
def pySplitSepAux : Nat → List Char → List (List Char)
  | 0, _ => [[]]
  | _ + 1, [] => [[]]
  | fuel + 1, c :: cs =>
    if isPrefAux sepChars (c :: cs) then [] :: pySplitSepAux fuel (cs.drop 2)
    else
      match pySplitSepAux fuel cs with
      | p :: ps => (c :: p) :: ps
      | [] => [[c]]

def pySplitSep (l : List Char) : List (List Char) := pySplitSepAux (l.length + 1) l

/-- Source line 186: `skill = col.split(" - ")[-1]` — the text after the last
`" - "` separator, or the whole label when no separator occurs. -/
def metricName (col : String) : String := String.mk ((pySplitSep col.data).getLastD [])

/-- Lookup in a Python dict modelled as an ordered association list
(first binding wins; bindings are unique by construction). -/
def dictLookup {α : Type} (k : String) : List (String × α) → Option α
  | [] => none
  | p :: rest => if p.1 = k then some p.2 else dictLookup k rest

/-- Python dict assignment `d[k] = v`: replace the binding in place if the
key is present, otherwise append a new binding at the end. -/
def dictInsert {α : Type} : List (String × α) → String → α → List (String × α)
  | [], k, v => [(k, v)]
  | p :: rest, k, v => if p.1 = k then (k, v) :: rest else p :: dictInsert rest k v

/-- Python `counts[option] += 1` (the key is always present, having been
initialised to 0; an absent key leaves the dict unchanged here). -/
def incrCounts : List (String × Nat) → String → List (String × Nat)
  | [], _ => []
  | p :: rest, k => if p.1 = k then (p.1, p.2 + 1) :: rest else p :: incrCounts rest k

/-- Source line 49: the fixed ordered Likert enumeration for staff reports. -/
def STAFF_LIKERT_OPTIONS : List String :=
  ["Strongly Agree", "Agree", "Neutral", "Disagree", "Strongly Disagree"]

/-- Source lines 50-56: the fixed colour per Likert value. -/
def STAFF_COLORS : List (String × String) :=
  [("Strongly Agree", "#1a9641"), ("Agree", "#a6d96a"), ("Neutral", "#ffff42"),
   ("Disagree", "#fdae61"), ("Strongly Disagree", "#d7191c")]

/-- Source line 59: the fixed ordered Likert enumeration for campus-rep
reports (textually identical to the staff one). -/
def CAMPUS_REP_LIKERT_ORDER : List String :=
  ["Strongly Agree", "Agree", "Neutral", "Disagree", "Strongly Disagree"]

/-- The inner loop of `calculate_likert_counts` (source lines 189-194): scan
the enumeration in order and increment the first option whose text equals the
trimmed cell value, then break; a cell matching no option is skipped. -/
def processCell (counts : List (String × Nat)) (val : String) : List (String × Nat) :=
  match STAFF_LIKERT_OPTIONS.find? (fun option => pyStrip val == option) with
  | some option => incrCounts counts option
  | none => counts

/-- Source line 187: `counts = {option: 0 for option in STAFF_LIKERT_OPTIONS}`. -/
def initCounts : List (String × Nat) := STAFF_LIKERT_OPTIONS.map (fun option => (option, 0))

/-- The per-column tally of `calculate_likert_counts` (source lines 187-194). -/
def tallyColumn (cells : List String) : List (String × Nat) :=
  cells.foldl processCell initCounts

/-- Source lines 172-197, `calculate_likert_counts(df, staff_name)`: pick the
columns whose label contains the staff name as a substring, tally each, and
store the tally under the metric name (text after the last `" - "`).  The
table `df` is the ordered list of (label, cells) columns. -/
def calculate_likert_counts (df : List (String × List String)) (staff_name : String) :
    List (String × List (String × Nat)) :=
  (df.filter (fun col => pyIn staff_name col.1)).foldl
    (fun acc col => dictInsert acc (metricName col.1) (tallyColumn col.2)) []

/-- Regex piece `\s*\[` anchored at the head: skip whitespace greedily; the
first non-whitespace character must be `[`.  Returns the characters after the
bracket. -/
def matchWsBracket : List Char → Option (List Char)
  | [] => none
  | c :: rest =>
    if c = '[' then some rest
    else if c.isWhitespace then matchWsBracket rest
    else none

/-- Regex piece `(.*?)\]` anchored after the `[`: the lazy group runs up to
the first `]`; `.` does not match a newline, so a newline before any `]`
fails the match.  Returns the group. -/
def matchAfterOpen : List Char → Option (List Char)
  | [] => none
  | c :: cs =>
    if c = ']' then some []
    else if c = '\n' then none
    else (matchAfterOpen cs).map (fun g2 => c :: g2)

/-- Try to match `\s*\[(.*?)\]` at the current position. -/
def tryMatchAt (s : List Char) : Option (List Char) :=
  match matchWsBracket s with
  | some afterOpen => matchAfterOpen afterOpen
  | none => none

/-- `re.match(r"(.*?)\s*\[(.*?)\]", col)` (source line 160): the lazy first
group grows character by character (never across a newline) until the rest of
the pattern matches; returns (group 1, group 2). -/
def findMatch (acc : List Char) : List Char → Option (List Char × List Char)
  | [] => none
  | c :: cs =>
    match tryMatchAt (c :: cs) with
    | some g2 => some (acc.reverse, g2)
    | none => if c = '\n' then none else findMatch (c :: acc) cs

/-- Source lines 157-168, the per-label body of `clean_column_names`: when the
label contains `[` and `]` and the regex matches, rewrite to
`"<name> - <category>"` with both groups stripped; otherwise the label passes
through unchanged. -/
def clean_one (col : String) : String :=
  if col.data.contains '[' && col.data.contains ']' then
    match findMatch [] col.data with
    | some g => pyStrip (String.mk g.1) ++ " - " ++ pyStrip (String.mk g.2)
    | none => col
  else col

/-- Source lines 154-170, `clean_column_names`: rewrite every column label. -/
def clean_column_names (cols : List String) : List String := cols.map clean_one

/-- Decimal digits of `n`, most significant first; fuel-driven so that it
reduces in the kernel (the wrapper always supplies enough fuel). -/
def decDigitsAux : Nat → Nat → List Char
  | 0, _ => []
  | fuel + 1, n =>
    if n < 10 then [Nat.digitChar n]
    else decDigitsAux fuel (n / 10) ++ [Nat.digitChar (n % 10)]

/-- Python `str(n)` for a natural number. -/
def natToDec (n : Nat) : String := String.mk (decDigitsAux (n + 1) n)

/-- Source lines 344-353 in `get_data`: disambiguate duplicate raw headers by
suffixing the occurrence count, tracked in the dict `m`
(`f"{header}_{header_count[header]}"`). -/
def make_unique_headers : List String → List (String × Nat) → List String
  | [], _ => []
  | h :: rest, m =>
    match dictLookup h m with
    | some c => (h ++ "_" ++ natToDec (c + 1)) :: make_unique_headers rest (dictInsert m h (c + 1))
    | none => h :: make_unique_headers rest (dictInsert m h 0)

/-- Header list produced by the staff ingestion path
(`process_staff_evaluation_docx`, source lines 312-313):
`pd.DataFrame(data[1:], columns=data[0])` keeps the raw headers as they are
(duplicates included) and `clean_column_names` rewrites each label. -/
def staff_ingest_headers (raw : List String) : List String := clean_column_names raw

/-- Reference form of one output label of `make_unique_headers`: the label a
header `h` receives when the headers already processed are `done`. -/
def headerEmit (done : List String) (h : String) : String :=
  if done.count h = 0 then h else h ++ "_" ++ natToDec (done.count h)

/-- Reference form of `make_unique_headers`, indexed by the list of already
processed headers instead of the count dict. -/
def renamedHeaders (done : List String) : List String → List String
  | [] => []
  | h :: rest => headerEmit done h :: renamedHeaders (done ++ [h]) rest

/-- One call `ax.bar(positions, counts, width=..., color=..., label=...)` of
the staff chart (source line 220). -/
structure BarSeries where
  positions : List ℚ
  heights : List Nat
  seriesWidth : ℚ
  color : String
  label : String

def defaultBarSeries : BarSeries := ⟨[], [], 0, "", ""⟩

/-- Source line 212: `bar_width = 0.15`. -/
def bar_width : ℚ := 15 / 100

/-- Source line 205: `n_options = len(STAFF_LIKERT_OPTIONS)`. -/
def n_options : Nat := STAFF_LIKERT_OPTIONS.length

/-- The bar series drawn for option index `i` in
`create_clustered_bar_chart_staff` (source lines 215-220): positions
`indices + i*bar_width - (n_options/2)*bar_width + bar_width/2`, heights the
raw counts per skill, colour from `STAFF_COLORS`. -/
def barSeriesFor (counts_data : List (String × List (String × Nat))) (i : Nat)
    (option : String) : BarSeries :=
  { positions := (List.range counts_data.length).map
      (fun j : Nat =>
        (j : ℚ) + (i : ℚ) * bar_width - ((n_options : ℚ) / 2) * bar_width + bar_width / 2),
    heights := counts_data.map (fun sc => (dictLookup option sc.2).getD 0),
    seriesWidth := bar_width,
    color := (dictLookup option STAFF_COLORS).getD "",
    label := option }

/-- Source lines 199-241, the bar content of
`create_clustered_bar_chart_staff`: one series per Likert option, drawn in
enumeration order. -/
def create_clustered_bar_chart_staff (counts_data : List (String × List (String × Nat))) :
    List BarSeries :=
  (List.range n_options).map (fun i => barSeriesFor counts_data i (STAFF_LIKERT_OPTIONS.getD i ""))

/-- Source line 384 in the campus-rep path: `responses.value_counts()` as a
frequency dict (`.to_dict()`). -/
def value_counts (cells : List String) : List (String × Nat) :=
  cells.foldl (fun acc v => dictInsert acc v ((dictLookup v acc).getD 0 + 1)) []

/-- Source line 387: `value_counts.get(option, 0)` for one column. -/
def campus_option_count (cells : List String) (option : String) : Nat :=
  (dictLookup option (value_counts cells)).getD 0

/-- A campus-rep DataFrame as produced by `get_data`: a header row and a
rectangular grid of string cells. -/
structure PandasDF where
  cols : List String
  rows : List (List String)

def NAME_COL : String := "Name of Campus Representative"

def COMMENTS_COL : String := "Comments on Campus Representative Support"

/-- Source lines 450-456: the five fixed Likert question columns. -/
def likert_columns : List String :=
  ["For each statement below, please select the option that best represents your opinion [My Campus Rep is accessible, respectful, and responsive to my needs for support.]",
   "For each statement below, please select the option that best represents your opinion [I have received regular, clear communication from my Campus Rep.]",
   "For each statement below, please select the option that best represents your opinion [Reflection sessions (during Saturday trainings, as well as on-campus) with my Campus Rep have been useful.]",
   "For each statement below, please select the option that best represents your opinion [I would have liked more time to reflect upon my JusticeCorps experiences with my peers.]",
   "For each statement below, please select the option that best represents your opinion [My Campus Rep has been a good resource.]"]

/-- Source lines 459-465: the abbreviated question labels. -/
def question_labels : List String :=
  ["Accessible & Responsive", "Clear Communication", "Useful Reflection Sessions",
   "More Peer Reflection Time", "Good Resource"]

/-- Index of a column label (pandas label-based access; first occurrence). -/
def indexOfCol (c : String) : List String → Option Nat
  | [] => none
  | c2 :: rest => if c2 = c then some 0 else (indexOfCol c rest).map (fun i => i + 1)

def cellAt (row : List String) (i : Nat) : String := row.getD i ""

/-- `df[c]` for a campus-rep frame: the cells of the column, or `none` when the
label is absent (pandas raises `KeyError`). -/
def getColumn (df : PandasDF) (c : String) : Option (List String) :=
  (indexOfCol c df.cols).map (fun i => df.rows.map (fun r => cellAt r i))

def getColumns (df : PandasDF) : List String → Option (List (List String))
  | [] => some []
  | c :: cs =>
    match getColumn df c, getColumns df cs with
    | some col, some rest => some (col :: rest)
    | _, _ => none

/-- Source line 444: `df[df["Name of Campus Representative"] == staff_member]`
(row subset; empty when the identity column is missing, in which case
`generate_docx_report` raises before filtering). -/
def filteredRows (df : PandasDF) (staff_member : String) : List (List String) :=
  match indexOfCol NAME_COL df.cols with
  | some i => df.rows.filter (fun r => cellAt r i == staff_member)
  | none => []

/-- The assembled campus-rep document (source lines 467-517): title, chart
data, summary table and the comments section. -/
structure CampusDoc where
  title : String
  chartCounts : List (List Nat)
  tableHeader : List String
  tableRows : List (List String)
  commentItems : List String
  placeholderShown : Bool

/-- Document assembly of `generate_docx_report` (source lines 467-517) on the
filtered subset: requires the five Likert columns, the identity column (used
by the chart title) and the comments column, else pandas raises (`none`).
`dropna()` is the identity here because every cell of a `get_data` frame is a
string.  The comments section shows one bullet per comment cell when the list
is non-empty, otherwise the placeholder line. -/
def buildCampusDoc (df_staff : PandasDF) (staff_member : String) : Option CampusDoc :=
  match getColumns df_staff likert_columns, getColumn df_staff NAME_COL,
        getColumn df_staff COMMENTS_COL with
  | some likertCols, some _nameVals, some commentVals =>
    some { title := "Campus Rep Report: " ++ staff_member,
           chartCounts := CAMPUS_REP_LIKERT_ORDER.map
             (fun option => likertCols.map (fun cells => campus_option_count cells option)),
           tableHeader := "Question" :: CAMPUS_REP_LIKERT_ORDER,
           tableRows := (likertCols.zip question_labels).map
             (fun p => p.2 :: CAMPUS_REP_LIKERT_ORDER.map
                (fun option => natToDec (campus_option_count p.1 option))),
           commentItems := if commentVals.isEmpty then [] else commentVals,
           placeholderShown := commentVals.isEmpty }
  | _, _, _ => none

/-- Observable outcome of `generate_docx_report`: the error message plus
`None` return when the subject matches no rows, an escaped pandas exception,
or a document saved at the computed path. -/
inductive ReportOutcome where
  | subjectMissing : ReportOutcome
  | raised : ReportOutcome
  | saved : String → CampusDoc → ReportOutcome

/-- Source line 440: keep alphanumeric characters and underscores, then
strip. -/
def safe_name (staff_member : String) : String :=
  pyStrip (String.mk (staff_member.data.filter (fun c => c.isAlphanum || c == '_')))

/-- Source lines 429-522, `generate_docx_report(df, staff_member)`: filter the
rows by exact match on the identity column; report and return `None` when the
subset is empty; otherwise assemble the document and save it.  A file is
written only in the `saved` outcome. -/
def generate_docx_report (df : PandasDF) (staff_member : String) : ReportOutcome :=
  match indexOfCol NAME_COL df.cols with
  | none => ReportOutcome.raised
  | some i =>
    let staffRows := df.rows.filter (fun r => cellAt r i == staff_member)
    if staffRows.isEmpty then ReportOutcome.subjectMissing
    else
      match buildCampusDoc ⟨df.cols, staffRows⟩ staff_member with
      | some doc =>
          ReportOutcome.saved
            ("reports/campus_rep_report_" ++ safe_name staff_member ++ ".docx") doc
      | none => ReportOutcome.raised

def writesFile : ReportOutcome → Bool
  | ReportOutcome.saved _ _ => true
  | _ => false

def outcomePath : ReportOutcome → Option String
  | ReportOutcome.saved p _ => some p
  | _ => none

def outcomeCommentItems : ReportOutcome → Option (List String)
  | ReportOutcome.saved _ d => some d.commentItems
  | _ => none

def outcomePlaceholder : ReportOutcome → Option Bool
  | ReportOutcome.saved _ d => some d.placeholderShown
  | _ => none

/-- The comment cells of the filtered subset (source line 512). -/
def commentsOf (df : PandasDF) (staff_member : String) : List String :=
  (getColumn ⟨df.cols, filteredRows df staff_member⟩ COMMENTS_COL).getD []

/-- Statement-side measure: how many cells of the column have trimmed form
exactly `o`. -/
def countMatching (cells : List String) (o : String) : Nat :=
  (cells.filter (fun v => pyStrip v == o)).length

/-- Statement-side measure: how many cells of the column are valid, i.e. have
trimmed form equal to some enumeration value. -/
def validCells (cells : List String) : Nat :=
  (cells.filter (fun v => STAFF_LIKERT_OPTIONS.contains (pyStrip v))).length

/-- Sample campus-rep table: one row for subject `"X"` whose comment cell is
the empty string. -/
def sampleCampusDF : PandasDF :=
  ⟨NAME_COL :: likert_columns ++ [COMMENTS_COL],
   [["X", "Agree", "Agree", "Agree", "Agree", "Agree", ""]]⟩

/- Lemmas about the dictionary model. -/

theorem dictLookup_dictInsert {α : Type} (m : List (String × α)) (k k2 : String) (v : α) :
    dictLookup k2 (dictInsert m k v) = if k = k2 then some v else dictLookup k2 m := by
  induction m with
  | nil => simp [dictLookup, dictInsert]
  | cons p rest ih =>
    simp only [dictInsert]
    by_cases h1 : p.1 = k
    · rw [if_pos h1]
      by_cases h2 : k = k2
      · simp [dictLookup, h2]
      · have h3 : ¬ p.1 = k2 := by rw [h1]; exact h2
        simp [dictLookup, h2, h3]
    · rw [if_neg h1]
      by_cases h2 : p.1 = k2
      · have h3 : ¬ k = k2 := fun hk => h1 (by rw [hk, ← h2])
        simp [dictLookup, h2, h3]
      · simp [dictLookup, h2, ih]

theorem mem_dictInsert {α : Type} {m : List (String × α)} {k : String} {v : α}
    {p : String × α} (h : p ∈ dictInsert m k v) : p = (k, v) ∨ p ∈ m := by
  induction m with
  | nil => simpa [dictInsert] using h
  | cons q rest ih =>
    by_cases h1 : q.1 = k
    · simp only [dictInsert, h1, if_true] at h
      rcases List.mem_cons.1 h with h2 | h2
      · exact Or.inl h2
      · exact Or.inr (List.mem_cons_of_mem q h2)
    · simp only [dictInsert, h1, if_false] at h
      rcases List.mem_cons.1 h with h2 | h2
      · exact Or.inr (h2 ▸ List.mem_cons_self q rest)
      · rcases ih h2 with h3 | h3
        · exact Or.inl h3
        · exact Or.inr (List.mem_cons_of_mem q h3)

theorem dictLookup_map_self (l : List String) (f : String → Nat) (o : String)
    (ho : o ∈ l) : dictLookup o (l.map fun x => (x, f x)) = some (f o) := by
  induction l with
  | nil => cases ho
  | cons a l ih =>
    by_cases h : a = o
    · subst h; simp [dictLookup]
    · have ho2 : o ∈ l := by
        rcases List.mem_cons.1 ho with h2 | h2
        · exact absurd h2.symm h
        · exact h2
      simp [dictLookup, h, ih ho2]

/- Map-shaped characterisation of the per-cell counting step. -/

theorem mapCongrMem {α β : Type} {l : List α} {f g : α → β}
    (h : ∀ a ∈ l, f a = g a) : l.map f = l.map g := by
  induction l with
  | nil => rfl
  | cons a l ih =>
    simp only [List.map_cons]
    rw [h a (List.mem_cons_self a l), ih (fun b hb => h b (List.mem_cons_of_mem a hb))]

theorem incrCounts_map_nodup (l : List String) (f : String → Nat) (k : String)
    (hl : l.Nodup) :
    incrCounts (l.map fun o => (o, f o)) k
      = l.map fun o => (o, if o = k then f o + 1 else f o) := by
  induction l with
  | nil => rfl
  | cons a l ih =>
    have ha : a ∉ l := (List.nodup_cons.1 hl).1
    have hl2 : l.Nodup := (List.nodup_cons.1 hl).2
    by_cases h : a = k
    · subst h
      have hhead : incrCounts ((a, f a) :: l.map fun o => (o, f o)) a
          = (a, f a + 1) :: l.map fun o => (o, f o) := by
        simp [incrCounts]
      rw [List.map_cons, hhead, List.map_cons, if_pos rfl]
      congr 1
      refine mapCongrMem (fun b hb => ?_)
      have hba : ¬ b = a := fun hba => ha (hba ▸ hb)
      simp [hba]
    · simp only [List.map_cons, incrCounts, if_neg h]
      rw [ih hl2]

theorem find_option_mem {l : List String} {x : String} (hx : x ∈ l) :
    l.find? (fun o => x == o) = some x := by
  induction l with
  | nil => cases hx
  | cons a l ih =>
    by_cases h : x = a
    · subst h
      rw [List.find?_cons_of_pos _ (by simp)]
    · have ho2 : x ∈ l := by
        rcases List.mem_cons.1 hx with h2 | h2
        · exact absurd h2 h
        · exact h2
      rw [List.find?_cons_of_neg _ (by simp [h])]
      exact ih ho2

theorem find_option_not_mem {l : List String} {x : String} (hx : x ∉ l) :
    l.find? (fun o => x == o) = none := by
  induction l with
  | nil => rfl
  | cons a l ih =>
    have h : x ≠ a := fun h2 => hx (h2 ▸ List.mem_cons_self a l)
    have hx2 : x ∉ l := fun h2 => hx (List.mem_cons_of_mem a h2)
    rw [List.find?_cons_of_neg _ (by simp [h])]
    exact ih hx2

theorem countMatching_cons (val : String) (cells : List String) (o : String) :
    countMatching (val :: cells) o
      = countMatching cells o + (if pyStrip val = o then 1 else 0) := by
  by_cases h : pyStrip val = o
  · simp [countMatching, List.filter_cons, h]
  · simp [countMatching, List.filter_cons, h]

theorem foldl_processCell_map (cells : List String) :
    ∀ f : String → Nat,
      cells.foldl processCell (STAFF_LIKERT_OPTIONS.map fun o => (o, f o))
        = STAFF_LIKERT_OPTIONS.map fun o => (o, f o + countMatching cells o) := by
  induction cells with
  | nil =>
    intro f
    simp [countMatching]
  | cons val cells ih =>
    intro f
    have hnodup : STAFF_LIKERT_OPTIONS.Nodup := by decide
    by_cases hmem : pyStrip val ∈ STAFF_LIKERT_OPTIONS
    · have hstep : processCell (STAFF_LIKERT_OPTIONS.map fun o => (o, f o)) val
          = STAFF_LIKERT_OPTIONS.map fun o => (o, if o = pyStrip val then f o + 1 else f o) := by
        unfold processCell
        rw [find_option_mem hmem]
        exact incrCounts_map_nodup _ _ _ hnodup
      rw [List.foldl_cons, hstep]
      refine (ih _).trans ?_
      refine mapCongrMem (fun o _ => ?_)
      by_cases h : o = pyStrip val
      · have h2 : pyStrip val = o := h.symm
        congr 1
        rw [countMatching_cons, if_pos h2, if_pos h]
        omega
      · have h2 : ¬ pyStrip val = o := fun h3 => h h3.symm
        congr 1
        rw [countMatching_cons, if_neg h2, if_neg h]
        omega
    · have hstep : processCell (STAFF_LIKERT_OPTIONS.map fun o => (o, f o)) val
          = STAFF_LIKERT_OPTIONS.map fun o => (o, f o) := by
        unfold processCell
        rw [find_option_not_mem hmem]
      rw [List.foldl_cons, hstep]
      refine (ih f).trans ?_
      refine mapCongrMem (fun o ho => ?_)
      have h2 : ¬ pyStrip val = o := fun h3 => hmem (h3 ▸ ho)
      congr 1
      rw [countMatching_cons, if_neg h2]
      omega

theorem tallyColumn_char (cells : List String) :
    tallyColumn cells = STAFF_LIKERT_OPTIONS.map fun o => (o, countMatching cells o) := by
  have h := foldl_processCell_map cells (fun _ => 0)
  simpa [tallyColumn, initCounts] using h

theorem tallyColumn_lookup (cells : List String) (o : String)
    (ho : o ∈ STAFF_LIKERT_OPTIONS) :
    dictLookup o (tallyColumn cells) = some (countMatching cells o) := by
  rw [tallyColumn_char]
  exact dictLookup_map_self _ _ _ ho

theorem contains_iff_mem (l : List String) (x : String) : l.contains x = true ↔ x ∈ l :=
  List.elem_iff

theorem sum_map_addf (l : List String) (g h : String → Nat) :
    (l.map fun o => g o + h o).sum = (l.map g).sum + (l.map h).sum := by
  induction l with
  | nil => rfl
  | cons a l ih =>
    simp only [List.map_cons, List.sum_cons, ih]
    omega

theorem sum_map_indicator (l : List String) (x : String) (hl : l.Nodup) :
    (l.map fun o => if x = o then 1 else 0).sum = if x ∈ l then 1 else 0 := by
  induction l with
  | nil => rfl
  | cons a l ih =>
    have ha : a ∉ l := (List.nodup_cons.1 hl).1
    have hl2 : l.Nodup := (List.nodup_cons.1 hl).2
    by_cases h : x = a
    · subst h
      simp [List.map_cons, ih hl2, ha]
    · simp [List.map_cons, ih hl2, h]

theorem sum_counts (cells : List String) :
    (STAFF_LIKERT_OPTIONS.map fun o => countMatching cells o).sum = validCells cells := by
  induction cells with
  | nil => simp [countMatching, validCells]
  | cons val cells ih =>
    have hnodup : STAFF_LIKERT_OPTIONS.Nodup := by decide
    have hc : (STAFF_LIKERT_OPTIONS.map fun o => countMatching (val :: cells) o)
        = STAFF_LIKERT_OPTIONS.map fun o =>
            countMatching cells o + (if pyStrip val = o then 1 else 0) :=
      mapCongrMem (fun o _ => countMatching_cons val cells o)
    have hv : validCells (val :: cells)
        = validCells cells + (if STAFF_LIKERT_OPTIONS.contains (pyStrip val) = true then 1 else 0) := by
      simp only [validCells, List.filter_cons]
      by_cases hb : STAFF_LIKERT_OPTIONS.contains (pyStrip val) = true
      · rw [if_pos hb, if_pos hb, List.length_cons]
      · rw [if_neg hb, if_neg hb, Nat.add_zero]
    have hcm : (STAFF_LIKERT_OPTIONS.contains (pyStrip val) = true)
        ↔ pyStrip val ∈ STAFF_LIKERT_OPTIONS := contains_iff_mem _ _
    rw [hc, sum_map_addf, ih, sum_map_indicator _ _ hnodup, hv]
    by_cases h : pyStrip val ∈ STAFF_LIKERT_OPTIONS
    · rw [if_pos h, if_pos (hcm.2 h)]
    · rw [if_neg h, if_neg (fun hb => h (hcm.1 hb))]

theorem mem_foldl_dictInsert (l : List (String × List String)) :
    ∀ (init : List (String × List (String × Nat))) (p : String × List (String × Nat)),
      p ∈ l.foldl (fun acc col => dictInsert acc (metricName col.1) (tallyColumn col.2)) init →
      p ∈ init ∨ ∃ col, col ∈ l ∧ metricName col.1 = p.1 ∧ tallyColumn col.2 = p.2 := by
  induction l with
  | nil => intro init p h; exact Or.inl h
  | cons c l ih =>
    intro init p h
    rcases ih _ p h with h2 | ⟨col, hcol, hk, hv⟩
    · rcases mem_dictInsert h2 with h3 | h3
      · exact Or.inr ⟨c, List.mem_cons_self c l, by rw [h3], by rw [h3]⟩
      · exact Or.inl h3
    · exact Or.inr ⟨col, List.mem_cons_of_mem c hcol, hk, hv⟩

theorem filterCongrMem {α : Type} {l : List α} {p q : α → Bool}
    (h : ∀ a ∈ l, p a = q a) : l.filter p = l.filter q := by
  induction l with
  | nil => rfl
  | cons a l ih =>
    rw [List.filter_cons, List.filter_cons, h a (List.mem_cons_self a l),
      ih (fun b hb => h b (List.mem_cons_of_mem a hb))]

theorem value_counts_get (cells : List String) (o : String) :
    campus_option_count cells o = (cells.filter (fun v => v == o)).length := by
  suffices h : ∀ acc : List (String × Nat),
      (dictLookup o
          (cells.foldl (fun acc v => dictInsert acc v ((dictLookup v acc).getD 0 + 1)) acc)).getD 0
        = (dictLookup o acc).getD 0 + (cells.filter (fun v => v == o)).length by
    have h2 := h []
    simpa [campus_option_count, value_counts, dictLookup] using h2
  induction cells with
  | nil =>
    intro acc
    simp
  | cons v cells ih =>
    intro acc
    rw [List.foldl_cons, ih (dictInsert acc v ((dictLookup v acc).getD 0 + 1)),
      dictLookup_dictInsert]
    by_cases h : v = o
    · rw [if_pos h]
      simp [List.filter_cons, h]
      omega
    · rw [if_neg h]
      simp [List.filter_cons, h]

/-- C1: in `calculate_likert_counts`, every metric entry of the result is the
tally of one matched column; within that tally each cell whose trimmed form
equals an enumeration value is counted once, under exactly that value, the
per-option count equals the number of cells whose trimmed form equals that
option, and the option counts sum to the number of valid cells of the column
(cells matching no option are counted nowhere).  The label-uniqueness
hypothesis is the data-model invariant under which column access by label is
well defined. -/
theorem c1_counts_partition (df : List (String × List String))
    (staff_name skill : String) (counts : List (String × Nat))
    (hnodup : (df.map Prod.fst).Nodup)
    (hmem : (skill, counts) ∈ calculate_likert_counts df staff_name) :
    ∃ col, col ∈ df ∧ pyIn staff_name col.1 = true ∧ metricName col.1 = skill ∧
      counts = tallyColumn col.2 ∧
      (∀ o ∈ STAFF_LIKERT_OPTIONS, dictLookup o counts = some (countMatching col.2 o)) ∧
      (counts.map Prod.snd).sum = validCells col.2 := by
  unfold calculate_likert_counts at hmem
  rcases mem_foldl_dictInsert _ [] _ hmem with h | ⟨col, hcol, hk, hv⟩
  · cases h
  · have hdf := List.mem_filter.1 hcol
    have hv2 : tallyColumn col.2 = counts := hv
    refine ⟨col, hdf.1, hdf.2, hk, hv2.symm, ?_, ?_⟩
    · intro o ho
      rw [← hv2]
      exact tallyColumn_lookup _ _ ho
    · rw [← hv2, tallyColumn_char, List.map_map]
      exact sum_counts col.2

/-- Witness for C1 at a concrete one-column table. -/
theorem c1_counts_partition_witness :
    ∃ col, col ∈ [("Alice - Communication", ["Strongly Agree", "Agree", "junk"])] ∧
      pyIn "Alice" col.1 = true ∧ metricName col.1 = "Communication" ∧
      [("Strongly Agree", 1), ("Agree", 1), ("Neutral", 0), ("Disagree", 0), ("Strongly Disagree", 0)]
        = tallyColumn col.2 ∧
      (∀ o ∈ STAFF_LIKERT_OPTIONS,
        dictLookup o [("Strongly Agree", 1), ("Agree", 1), ("Neutral", 0), ("Disagree", 0),
            ("Strongly Disagree", 0)]
          = some (countMatching col.2 o)) ∧
      (([("Strongly Agree", 1), ("Agree", 1), ("Neutral", 0), ("Disagree", 0),
          ("Strongly Disagree", 0)].map Prod.snd).sum = validCells col.2) :=
  c1_counts_partition [("Alice - Communication", ["Strongly Agree", "Agree", "junk"])]
    "Alice" "Communication" _ (by decide) (by decide)

/-- C2 is false as stated: the staff counter counts a cell after trimming,
the fixed-questionnaire counter counts the raw cell, so the cell `" Agree"`
is counted under `"Agree"` by the first and not by the second. -/
theorem c2_equivalence_counterexample :
    campus_option_count [" Agree"] "Agree" = 0 ∧
      dictLookup "Agree" (tallyColumn [" Agree"]) = some 1 := by decide

/-- C2 (amended): on a column whose cells are already whitespace-trimmed, the
staff per-row scan and the fixed-questionnaire value-multiset counting give
the same frequency for every enumeration value. -/
theorem c2_trimmed_equivalence (cells : List String) (h : ∀ v ∈ cells, pyStrip v = v)
    (o : String) (ho : o ∈ CAMPUS_REP_LIKERT_ORDER) :
    campus_option_count cells o = (dictLookup o (tallyColumn cells)).getD 0 := by
  have ho2 : o ∈ STAFF_LIKERT_OPTIONS := by
    have he : CAMPUS_REP_LIKERT_ORDER = STAFF_LIKERT_OPTIONS := rfl
    exact he ▸ ho
  rw [value_counts_get, tallyColumn_lookup _ _ ho2, Option.getD_some]
  unfold countMatching
  refine congrArg List.length (filterCongrMem (fun v hv => ?_))
  rw [h v hv]

/-- Witness for C2 (amended) on a trimmed column. -/
theorem c2_trimmed_equivalence_witness :
    campus_option_count ["Agree", "junk"] "Agree"
      = (dictLookup "Agree" (tallyColumn ["Agree", "junk"])).getD 0 :=
  c2_trimmed_equivalence ["Agree", "junk"] (by decide) "Agree" (by decide)

/-- C4: a subject whose identifier is a substring of no column label yields
the empty mapping (no exception is possible: the embedding is total exactly
because the source loop touches no column in that case); and with matching
columns but no data rows every metric maps to the all-zero distribution. -/
theorem c4_no_data (df : List (String × List String)) (staff_name : String)
    (hnodup : (df.map Prod.fst).Nodup) :
    ((∀ col ∈ df, pyIn staff_name col.1 = false) →
        calculate_likert_counts df staff_name = []) ∧
      ((∀ col ∈ df, col.2 = []) →
        ∀ p ∈ calculate_likert_counts df staff_name, p.2.map Prod.snd = [0, 0, 0, 0, 0]) := by
  constructor
  · intro h
    unfold calculate_likert_counts
    have hf : df.filter (fun col => pyIn staff_name col.1) = [] := by
      rw [List.filter_eq_nil_iff]
      intro a ha
      simp [h a ha]
    rw [hf]
    rfl
  · intro h p hp
    unfold calculate_likert_counts at hp
    rcases mem_foldl_dictInsert _ [] _ hp with h2 | ⟨col, hcol, hk, hv⟩
    · cases h2
    · have hcells : col.2 = [] := h col (List.mem_filter.1 hcol).1
      have hv2 : tallyColumn col.2 = p.2 := hv
      rw [← hv2, hcells]
      rfl

/-- Witness for C4: a subject matching no column of a concrete table. -/
theorem c4_no_data_witness :
    calculate_likert_counts [("Bob - Skill", ["Agree"])] "Alice" = [] :=
  (c4_no_data [("Bob - Skill", ["Agree"])] "Alice" (by decide)).1 (by decide)

/-- C5: a single cell is counted under an enumeration value exactly when its
trimmed string form equals that value (case-sensitively); in particular
`" agree "` contributes nothing to `"Agree"`. -/
theorem c5_exact_trimmed_match :
    (∀ val o : String, o ∈ STAFF_LIKERT_OPTIONS →
        (dictLookup o (tallyColumn [val]) = some 1 ↔ pyStrip val = o)) ∧
      dictLookup "Agree" (tallyColumn [" agree "]) = some 0 := by
  constructor
  · intro val o ho
    rw [tallyColumn_lookup _ _ ho]
    constructor
    · intro h
      by_contra hne
      have hz : countMatching [val] o = 0 := by
        simp [countMatching, List.filter_cons, hne]
      rw [hz] at h
      exact absurd (Option.some.inj h) (by omega)
    · intro h
      have h1 : countMatching [val] o = 1 := by
        simp [countMatching, List.filter_cons, h]
      rw [h1]
  · decide

/-- Witness for C5: the exactly matching cell `"Agree"` is counted once. -/
theorem c5_exact_trimmed_match_witness :
    dictLookup "Agree" (tallyColumn ["Agree"]) = some 1 :=
  (c5_exact_trimmed_match.1 "Agree" "Agree" (by decide)).2 (by decide)

theorem dictLookup_foldl_last (l : List (String × List String)) :
    ∀ (init : List (String × List (String × Nat))) (k : String),
      dictLookup k
          (l.foldl (fun acc col => dictInsert acc (metricName col.1) (tallyColumn col.2)) init)
        = match (l.filter (fun col => metricName col.1 == k)).getLast? with
          | some col => some (tallyColumn col.2)
          | none => dictLookup k init := by
  induction l with
  | nil => intro init k; rfl
  | cons c l ih =>
    intro init k
    rw [List.foldl_cons, ih]
    by_cases h : metricName c.1 = k
    · rw [List.filter_cons, if_pos (by simp [h])]
      cases hxs : l.filter (fun col => metricName col.1 == k) with
      | nil =>
        show dictLookup k (dictInsert init (metricName c.1) (tallyColumn c.2))
          = some (tallyColumn c.2)
        rw [dictLookup_dictInsert, if_pos h]
      | cons d ds =>
        rw [List.getLast?_cons_cons, List.getLast?_eq_getLast (d :: ds) (by simp)]
    · rw [List.filter_cons, if_neg (by simp [h])]
      cases hxs : (l.filter (fun col => metricName col.1 == k)).getLast? with
      | none =>
        show dictLookup k (dictInsert init (metricName c.1) (tallyColumn c.2))
          = dictLookup k init
        rw [dictLookup_dictInsert, if_neg h]
      | some x => rfl

/-- C10: when two or more columns matched by the subject identifier share a
metric name (the text after the last `" - "`), `calculate_likert_counts`
keeps only the tally of the last such column in column order; the
earlier tallies are overwritten by the dict assignment, not merged. -/
theorem c10_last_column_wins (df : List (String × List String)) (staff_name skill : String)
    (hnodup : (df.map Prod.fst).Nodup)
    (hne : (df.filter (fun col => pyIn staff_name col.1)).filter
        (fun col => metricName col.1 == skill) ≠ []) :
    dictLookup skill (calculate_likert_counts df staff_name)
      = some (tallyColumn
          (((df.filter (fun col => pyIn staff_name col.1)).filter
              (fun col => metricName col.1 == skill)).getLast hne).2) := by
  unfold calculate_likert_counts
  rw [dictLookup_foldl_last, List.getLast?_eq_getLast _ hne]

/-- Witness for C10: two matched columns named `"X"`; the tally of the second
is the one returned. -/
theorem c10_last_column_wins_witness :
    dictLookup "X" (calculate_likert_counts
        [("Alice A - X", ["Agree"]), ("Alice B - X", ["Disagree"])] "Alice")
      = some (tallyColumn ["Disagree"]) := by
  rw [c10_last_column_wins
    [("Alice A - X", ["Agree"]), ("Alice B - X", ["Disagree"])] "Alice" "X"
    (by decide) (by decide)]
  decide

/- Lemmas about the header-normalisation regex model. -/

theorem stripList_append_ws (l w : List Char) (hw : ∀ c ∈ w, c.isWhitespace = true) :
    stripList (l ++ w) = stripList l := by
  unfold stripList
  by_cases h : l.dropWhile Char.isWhitespace = []
  · have hwnil : w.dropWhile Char.isWhitespace = [] := List.dropWhile_eq_nil_iff.2 hw
    have h2 : (l ++ w).dropWhile Char.isWhitespace = [] := by
      rw [List.dropWhile_append, h]
      simpa using hwnil
    rw [h2, h]
  · have h2 : (l ++ w).dropWhile Char.isWhitespace
        = l.dropWhile Char.isWhitespace ++ w := by
      rw [List.dropWhile_append, if_neg (fun hh => h (List.isEmpty_iff.1 hh))]
    rw [h2, List.reverse_append, List.dropWhile_append,
      if_pos (List.isEmpty_iff.2 (List.dropWhile_eq_nil_iff.2
        (fun c hc => hw c (List.mem_reverse.1 hc))))]

theorem matchAfterOpen_append (cat rest : List Char) (hc1 : ']' ∉ cat) (hc2 : '\n' ∉ cat) :
    matchAfterOpen (cat ++ ']' :: rest) = some cat := by
  induction cat with
  | nil => simp [matchAfterOpen]
  | cons c cs ih =>
    have h1 : ¬ c = ']' := fun h => hc1 (h ▸ List.mem_cons_self c cs)
    have h2 : ¬ c = '\n' := fun h => hc2 (h ▸ List.mem_cons_self c cs)
    have ih2 := ih (fun h => hc1 (List.mem_cons_of_mem c h))
      (fun h => hc2 (List.mem_cons_of_mem c h))
    simp [matchAfterOpen, h1, h2, ih2]

theorem matchWsBracket_ws (nm s : List Char) (hws : ∀ c ∈ nm, c.isWhitespace = true) :
    matchWsBracket (nm ++ '[' :: s) = some s := by
  induction nm with
  | nil => simp [matchWsBracket]
  | cons c cs ih =>
    have hcw : c.isWhitespace = true := hws c (List.mem_cons_self c cs)
    have hcb : ¬ c = '[' := by
      intro h
      rw [h] at hcw
      exact absurd hcw (by decide)
    have ih2 := ih (fun d hd => hws d (List.mem_cons_of_mem c hd))
    simp [matchWsBracket, hcb, hcw, ih2]

theorem matchWsBracket_fail (nm s : List Char) (hnb : '[' ∉ nm)
    (hnw : ¬ ∀ c ∈ nm, c.isWhitespace = true) :
    matchWsBracket (nm ++ s) = none := by
  induction nm with
  | nil => exact absurd (fun c hc => absurd hc (List.not_mem_nil c)) hnw
  | cons c cs ih =>
    have hcb : ¬ c = '[' := fun h => hnb (h ▸ List.mem_cons_self c cs)
    by_cases hcw : c.isWhitespace = true
    · have hnw2 : ¬ ∀ d ∈ cs, d.isWhitespace = true := by
        intro hall
        refine hnw (fun d hd => ?_)
        rcases List.mem_cons.1 hd with h | h
        · rw [h]; exact hcw
        · exact hall d h
      have ih2 := ih (fun h => hnb (List.mem_cons_of_mem c h)) hnw2
      simp [matchWsBracket, hcb, hcw, ih2]
    · simp [matchWsBracket, hcb, hcw]

theorem findMatch_cons_eq (acc : List Char) (c : Char) (cs : List Char) :
    findMatch acc (c :: cs)
      = match tryMatchAt (c :: cs) with
        | some g2 => some (acc.reverse, g2)
        | none => if c = '\n' then none else findMatch (c :: acc) cs := rfl

theorem findMatch_structured (nm : List Char) :
    ∀ (acc cat rest : List Char),
      '[' ∉ nm → '\n' ∉ nm → ']' ∉ cat → '\n' ∉ cat →
      ∃ g1, findMatch acc (nm ++ '[' :: (cat ++ ']' :: rest)) = some (g1, cat) ∧
        stripList g1 = stripList (acc.reverse ++ nm) := by
  induction nm with
  | nil =>
    intro acc cat rest _ _ hc1 hc2
    refine ⟨acc.reverse, ?_, by simp⟩
    have htry : tryMatchAt ('[' :: (cat ++ ']' :: rest)) = some cat := by
      have hmw : matchWsBracket ('[' :: (cat ++ ']' :: rest)) = some (cat ++ ']' :: rest) := by
        simp [matchWsBracket]
      unfold tryMatchAt
      rw [hmw]
      exact matchAfterOpen_append cat rest hc1 hc2
    rw [List.nil_append, findMatch_cons_eq, htry]
  | cons c cs ih =>
    intro acc cat rest hb hn hc1 hc2
    have hcn : ¬ c = '\n' := fun h => hn (h ▸ List.mem_cons_self c cs)
    have hbs : '[' ∉ cs := fun h => hb (List.mem_cons_of_mem c h)
    have hns : '\n' ∉ cs := fun h => hn (List.mem_cons_of_mem c h)
    by_cases hws : ∀ d ∈ (c :: cs), d.isWhitespace = true
    · have htry : tryMatchAt ((c :: cs) ++ '[' :: (cat ++ ']' :: rest)) = some cat := by
        unfold tryMatchAt
        rw [matchWsBracket_ws _ _ hws]
        exact matchAfterOpen_append cat rest hc1 hc2
      refine ⟨acc.reverse, ?_, ?_⟩
      · rw [List.cons_append] at htry ⊢
        rw [findMatch_cons_eq, htry]
      · rw [stripList_append_ws acc.reverse (c :: cs) hws]
    · have htry : tryMatchAt ((c :: cs) ++ '[' :: (cat ++ ']' :: rest)) = none := by
        unfold tryMatchAt
        rw [matchWsBracket_fail (c :: cs) _ hb hws]
      obtain ⟨g1, hg1, hstrip⟩ := ih (c :: acc) cat rest hbs hns hc1 hc2
      refine ⟨g1, ?_, ?_⟩
      · rw [List.cons_append] at htry ⊢
        rw [findMatch_cons_eq, htry]
        show (if c = '\n' then none
            else findMatch (c :: acc) (cs ++ '[' :: (cat ++ ']' :: rest))) = some (g1, cat)
        rw [if_neg hcn]
        exact hg1
      · rw [hstrip]
        simp [List.reverse_cons, List.append_assoc]

/-- C3 is false as stated: a label with trailing text after the bracketed
category does not match the pattern `<name> [<category>]` (even allowing
surrounding whitespace), yet `clean_column_names` rewrites it and drops the
trailing text instead of passing it through unchanged. -/
theorem c3_header_counterexample :
    clean_one "Name [Cat] trailing" = "Name - Cat" ∧
      "Name - Cat" ≠ "Name [Cat] trailing" := by decide

/-- C3 (amended): header normalisation keeps length and order; a label
lacking `[` or lacking `]` passes through unchanged; and a label of the form
`<name>[<category>]<anything>` — name free of `[` and newlines, category free
of `]` and newlines — is rewritten to `"<name> - <category>"` with both parts
trimmed, the text after the closing bracket being dropped. -/
theorem c3_header_normalization (cols : List String) (name cat rest : String)
    (hn1 : '[' ∉ name.data) (hn2 : '\n' ∉ name.data)
    (hc1 : ']' ∉ cat.data) (hc2 : '\n' ∉ cat.data) :
    (clean_column_names cols).length = cols.length ∧
      (∀ i, i < cols.length → (clean_column_names cols).getD i "" = clean_one (cols.getD i "")) ∧
      (∀ col : String, ¬ (col.data.contains '[' = true ∧ col.data.contains ']' = true) →
        clean_one col = col) ∧
      clean_one (name ++ "[" ++ cat ++ "]" ++ rest)
        = pyStrip name ++ " - " ++ pyStrip cat := by
  refine ⟨by simp [clean_column_names], ?_, ?_, ?_⟩
  · intro i hi
    have hg : cols[i]? = some cols[i] := List.getElem?_eq_getElem hi
    simp [clean_column_names, List.getD, List.getElem?_map, hg]
  · intro col h
    have hcond : ¬ (col.data.contains '[' && col.data.contains ']') = true := by
      rw [Bool.and_eq_true]
      exact h
    unfold clean_one
    rw [if_neg hcond]
  · have hdata : (name ++ "[" ++ cat ++ "]" ++ rest).data
        = name.data ++ '[' :: (cat.data ++ ']' :: rest.data) := by
      simp [String.data_append]
    have h1 : (name ++ "[" ++ cat ++ "]" ++ rest).data.contains '[' = true := by
      rw [hdata]
      exact List.elem_iff.2 (List.mem_append_right _ (List.mem_cons_self _ _))
    have h2 : (name ++ "[" ++ cat ++ "]" ++ rest).data.contains ']' = true := by
      rw [hdata]
      refine List.elem_iff.2 (List.mem_append_right _ (List.mem_cons_of_mem _ ?_))
      exact List.mem_append_right _ (List.mem_cons_self _ _)
    obtain ⟨g1, hg, hs⟩ := findMatch_structured name.data [] cat.data rest.data hn1 hn2 hc1 hc2
    have hclean : clean_one (name ++ "[" ++ cat ++ "]" ++ rest)
        = pyStrip (String.mk g1) ++ " - " ++ pyStrip (String.mk cat.data) := by
      unfold clean_one
      rw [if_pos (by rw [Bool.and_eq_true]; exact ⟨h1, h2⟩), hdata, hg]
    rw [hclean]
    have e1 : stripList g1 = stripList name.data := by simpa using hs
    have e2 : pyStrip (String.mk g1) = pyStrip name := by
      show String.mk (stripList g1) = String.mk (stripList name.data)
      rw [e1]
    rw [e2]

/-- Witness for C3 (amended) at a concrete label list. -/
theorem c3_header_normalization_witness :
    (clean_column_names ["Alice [Communication]", "Other"]).length
        = (["Alice [Communication]", "Other"] : List String).length ∧
      (∀ i, i < (["Alice [Communication]", "Other"] : List String).length →
        (clean_column_names ["Alice [Communication]", "Other"]).getD i ""
          = clean_one ((["Alice [Communication]", "Other"] : List String).getD i "")) ∧
      (∀ col : String, ¬ (col.data.contains '[' = true ∧ col.data.contains ']' = true) →
        clean_one col = col) ∧
      clean_one ("Alice " ++ "[" ++ "Communication" ++ "]" ++ "")
        = pyStrip "Alice " ++ " - " ++ pyStrip "Communication" :=
  c3_header_normalization ["Alice [Communication]", "Other"] "Alice " "Communication" ""
    (by decide) (by decide) (by decide) (by decide)

/- Chart layout (claim C6). -/

theorem range_map_getD {α : Type} (n j : Nat) (f : Nat → α) (d : α) (hj : j < n) :
    ((List.range n).map f).getD j d = f j := by
  rw [List.getD_eq_getElem?_getD, List.getElem?_map, List.getElem?_range hj]
  rfl

theorem chart_getD (cd : List (String × List (String × Nat))) (i : Nat) (hi : i < 5) :
    (create_clustered_bar_chart_staff cd).getD i defaultBarSeries
      = barSeriesFor cd i (STAFF_LIKERT_OPTIONS.getD i "") := by
  unfold create_clustered_bar_chart_staff
  exact range_map_getD _ i _ _ hi

theorem chart_position (cd : List (String × List (String × Nat))) (k j : Nat)
    (hk : k < 5) (hj : j < cd.length) :
    ((create_clustered_bar_chart_staff cd).getD k defaultBarSeries).positions.getD j 0
      = (j : ℚ) + (k : ℚ) * (15/100) - (5/2) * (15/100) + (15/100) / 2 := by
  rw [chart_getD cd k hk]
  have hpos : (barSeriesFor cd k (STAFF_LIKERT_OPTIONS.getD k "")).positions
      = (List.range cd.length).map
        (fun j2 : Nat => (j2 : ℚ) + (k : ℚ) * bar_width - ((n_options : ℚ) / 2) * bar_width
          + bar_width / 2) := rfl
  rw [hpos, range_map_getD _ _ _ _ hj]
  have h5 : ((n_options : ℕ) : ℚ) = 5 := by
    have he : n_options = 5 := rfl
    rw [he]
    norm_num
  rw [h5, show bar_width = (15/100 : ℚ) from rfl]

/-- C6: for every counts mapping, the staff chart draws one bar series per
enumeration value in enumeration order, places the bar of option index `i` in
metric cluster `j` at `j + i*w - (5/2)*w + w/2` with fixed `w = 0.15`, keeps
the series strictly ordered left to right inside each cluster, and assigns
the fixed colours green, light green, yellow, orange, red to the five-point
scale independently of the data. -/
theorem c6_chart_layout (cd : List (String × List (String × Nat))) (i i2 j : Nat)
    (hi : i < 5) (hi2 : i2 < 5) (hj : j < cd.length) (hlt : i < i2) :
    ((create_clustered_bar_chart_staff cd).map (fun s => s.color))
        = ["#1a9641", "#a6d96a", "#ffff42", "#fdae61", "#d7191c"] ∧
      ((create_clustered_bar_chart_staff cd).map (fun s => s.label)) = STAFF_LIKERT_OPTIONS ∧
      ((create_clustered_bar_chart_staff cd).getD i defaultBarSeries).positions.getD j 0
        = (j : ℚ) + (i : ℚ) * (15/100) - (5/2) * (15/100) + (15/100) / 2 ∧
      ((create_clustered_bar_chart_staff cd).getD i defaultBarSeries).positions.getD j 0
        < ((create_clustered_bar_chart_staff cd).getD i2 defaultBarSeries).positions.getD j 0 := by
  refine ⟨rfl, rfl, chart_position cd i j hi hj, ?_⟩
  rw [chart_position cd i j hi hj, chart_position cd i2 j hi2 hj]
  have hq : (i : ℚ) < (i2 : ℚ) := by exact_mod_cast hlt
  linarith

/-- Witness for C6 at a one-metric counts mapping, option indices 0 and 1. -/
theorem c6_chart_layout_witness :
    ((create_clustered_bar_chart_staff [("Skill", [])]).map (fun s => s.color))
        = ["#1a9641", "#a6d96a", "#ffff42", "#fdae61", "#d7191c"] ∧
      ((create_clustered_bar_chart_staff [("Skill", [])]).map (fun s => s.label))
        = STAFF_LIKERT_OPTIONS ∧
      ((create_clustered_bar_chart_staff [("Skill", [])]).getD 0 defaultBarSeries).positions.getD 0 0
        = ((0 : Nat) : ℚ) + ((0 : Nat) : ℚ) * (15/100) - (5/2) * (15/100) + (15/100) / 2 ∧
      ((create_clustered_bar_chart_staff [("Skill", [])]).getD 0 defaultBarSeries).positions.getD 0 0
        < ((create_clustered_bar_chart_staff [("Skill", [])]).getD 1 defaultBarSeries).positions.getD 0 0 :=
  c6_chart_layout [("Skill", [])] 0 1 0 (by decide) (by decide) (by decide) (by decide)

/- Campus-rep report outcome (claims C7 and C9). -/

theorem indexOfCol_of_mem (c : String) (l : List String) (h : c ∈ l) :
    ∃ i, indexOfCol c l = some i := by
  induction l with
  | nil => cases h
  | cons a l ih =>
    by_cases ha : a = c
    · exact ⟨0, by simp [indexOfCol, ha]⟩
    · have h2 : c ∈ l := by
        rcases List.mem_cons.1 h with hh | hh
        · exact absurd hh.symm ha
        · exact hh
      obtain ⟨i, hi⟩ := ih h2
      exact ⟨i + 1, by simp [indexOfCol, ha, hi]⟩

theorem buildCampusDoc_eq (df_staff : PandasDF) (staff_member : String)
    (likertCols : List (List String)) (nameVals commentVals : List String)
    (hlk : getColumns df_staff likert_columns = some likertCols)
    (hnm : getColumn df_staff NAME_COL = some nameVals)
    (hcm : getColumn df_staff COMMENTS_COL = some commentVals) :
    buildCampusDoc df_staff staff_member
      = some { title := "Campus Rep Report: " ++ staff_member,
               chartCounts := CAMPUS_REP_LIKERT_ORDER.map
                 (fun option => likertCols.map (fun cells => campus_option_count cells option)),
               tableHeader := "Question" :: CAMPUS_REP_LIKERT_ORDER,
               tableRows := (likertCols.zip question_labels).map
                 (fun p => p.2 :: CAMPUS_REP_LIKERT_ORDER.map
                    (fun option => natToDec (campus_option_count p.1 option))),
               commentItems := if commentVals.isEmpty then [] else commentVals,
               placeholderShown := commentVals.isEmpty } := by
  unfold buildCampusDoc
  rw [hlk, hnm, hcm]

/-- C7: when the exact-match filter on the identity column yields zero rows,
`generate_docx_report` reports the condition and returns `None`
(`subjectMissing`) and no file is written; and a file is written only when
the filtered subset is non-empty and the full document assembly succeeded,
at the computed report path. -/
theorem c7_subject_missing (df : PandasDF) (staff_member : String)
    (hcol : NAME_COL ∈ df.cols) :
    (filteredRows df staff_member = [] →
        generate_docx_report df staff_member = ReportOutcome.subjectMissing ∧
          writesFile (generate_docx_report df staff_member) = false) ∧
      (writesFile (generate_docx_report df staff_member) = true →
        filteredRows df staff_member ≠ [] ∧
          (buildCampusDoc ⟨df.cols, filteredRows df staff_member⟩ staff_member).isSome = true ∧
          outcomePath (generate_docx_report df staff_member)
            = some ("reports/campus_rep_report_" ++ safe_name staff_member ++ ".docx")) := by
  obtain ⟨i, hi⟩ := indexOfCol_of_mem NAME_COL df.cols hcol
  have hfr : filteredRows df staff_member
      = df.rows.filter (fun r => cellAt r i == staff_member) := by
    unfold filteredRows
    rw [hi]
  constructor
  · intro hempty
    rw [hfr] at hempty
    constructor
    · simp [generate_docx_report, hi, hempty]
    · simp [generate_docx_report, hi, hempty, writesFile]
  · intro hw
    by_cases hempty : (df.rows.filter (fun r => cellAt r i == staff_member)).isEmpty = true
    · have hgen : generate_docx_report df staff_member = ReportOutcome.subjectMissing := by
        simp [generate_docx_report, hi, hempty]
      rw [hgen] at hw
      simp [writesFile] at hw
    · cases hdoc : buildCampusDoc
          ⟨df.cols, df.rows.filter (fun r => cellAt r i == staff_member)⟩ staff_member with
      | none =>
        have hgen : generate_docx_report df staff_member = ReportOutcome.raised := by
          simp [generate_docx_report, hi, hempty, hdoc]
        rw [hgen] at hw
        simp [writesFile] at hw
      | some doc =>
        have hgen : generate_docx_report df staff_member
            = ReportOutcome.saved
                ("reports/campus_rep_report_" ++ safe_name staff_member ++ ".docx") doc := by
          simp [generate_docx_report, hi, hempty, hdoc]
        refine ⟨?_, ?_, ?_⟩
        · rw [hfr]
          intro hnil
          exact hempty (by rw [hnil]; rfl)
        · rw [hfr, hdoc]
          rfl
        · rw [hgen]
          rfl

/-- Witness for C7: the subject `"Jordan"` matches no row of a one-row table. -/
theorem c7_subject_missing_witness :
    generate_docx_report ⟨[NAME_COL], [["Alex"]]⟩ "Jordan" = ReportOutcome.subjectMissing ∧
      writesFile (generate_docx_report ⟨[NAME_COL], [["Alex"]]⟩ "Jordan") = false :=
  (c7_subject_missing ⟨[NAME_COL], [["Alex"]]⟩ "Jordan" (by decide)).1 (by decide)

set_option maxRecDepth 16384 in
/-- C9 is false as stated: in `sampleCampusDF` the subject `"X"` has no
non-empty comment, yet the generated Comments section shows one bulleted item
(the empty string) and not the placeholder line. -/
theorem c9_comments_counterexample :
    ((commentsOf sampleCampusDF "X").filter (fun c => !c.isEmpty)).length = 0 ∧
      outcomeCommentItems (generate_docx_report sampleCampusDF "X") = some [""] ∧
      outcomePlaceholder (generate_docx_report sampleCampusDF "X") = some false := by
  decide

/-- C9 (amended): whenever a campus-rep report is saved, its Comments section
carries exactly the comment cells of the filtered rows, verbatim and in row
order — one bulleted item per row, empty strings included — and the
placeholder appears exactly when that list is empty, which cannot happen for
a saved report on rectangular string data (one comment cell per row and at
least one row). -/
theorem c9_comments_section (df : PandasDF) (staff_member : String)
    (hw : writesFile (generate_docx_report df staff_member) = true) :
    outcomeCommentItems (generate_docx_report df staff_member)
        = some (commentsOf df staff_member) ∧
      outcomePlaceholder (generate_docx_report df staff_member)
        = some (commentsOf df staff_member).isEmpty ∧
      (commentsOf df staff_member).length = (filteredRows df staff_member).length ∧
      filteredRows df staff_member ≠ [] := by
  cases hidx : indexOfCol NAME_COL df.cols with
  | none =>
    have hgen : generate_docx_report df staff_member = ReportOutcome.raised := by
      simp [generate_docx_report, hidx]
    rw [hgen] at hw
    simp [writesFile] at hw
  | some i =>
    have hfr : filteredRows df staff_member
        = df.rows.filter (fun r => cellAt r i == staff_member) := by
      unfold filteredRows
      rw [hidx]
    by_cases hempty : (df.rows.filter (fun r => cellAt r i == staff_member)).isEmpty = true
    · have hgen : generate_docx_report df staff_member = ReportOutcome.subjectMissing := by
        simp [generate_docx_report, hidx, hempty]
      rw [hgen] at hw
      simp [writesFile] at hw
    · cases hdoc : buildCampusDoc
          ⟨df.cols, df.rows.filter (fun r => cellAt r i == staff_member)⟩ staff_member with
      | none =>
        have hgen : generate_docx_report df staff_member = ReportOutcome.raised := by
          simp [generate_docx_report, hidx, hempty, hdoc]
        rw [hgen] at hw
        simp [writesFile] at hw
      | some doc =>
        have hgen : generate_docx_report df staff_member
            = ReportOutcome.saved
                ("reports/campus_rep_report_" ++ safe_name staff_member ++ ".docx") doc := by
          simp [generate_docx_report, hidx, hempty, hdoc]
        have hlk0 := hdoc
        unfold buildCampusDoc at hlk0
        cases hlk : getColumns ⟨df.cols, df.rows.filter (fun r => cellAt r i == staff_member)⟩
            likert_columns with
        | none =>
          rw [hlk] at hlk0
          cases hlk0
        | some likertCols =>
          cases hnm : getColumn ⟨df.cols, df.rows.filter (fun r => cellAt r i == staff_member)⟩
              NAME_COL with
          | none =>
            rw [hlk, hnm] at hlk0
            cases hlk0
          | some nameVals =>
            cases hcm : getColumn ⟨df.cols, df.rows.filter (fun r => cellAt r i == staff_member)⟩
                COMMENTS_COL with
            | none =>
              rw [hlk, hnm, hcm] at hlk0
              cases hlk0
            | some commentVals =>
              have hbuilt := buildCampusDoc_eq _ staff_member likertCols nameVals commentVals
                hlk hnm hcm
              rw [hdoc] at hbuilt
              have hdd := Option.some.inj hbuilt
              have hcomments : commentsOf df staff_member = commentVals := by
                unfold commentsOf
                rw [hfr, hcm]
                rfl
              have hitems : doc.commentItems = commentVals := by
                rw [hdd]
                show (if commentVals.isEmpty = true then [] else commentVals) = commentVals
                by_cases hce : commentVals.isEmpty = true
                · rw [if_pos hce, List.isEmpty_iff.1 hce]
                · rw [if_neg hce]
              have hph : doc.placeholderShown = commentVals.isEmpty := by
                rw [hdd]
              have hlen : commentVals.length
                  = (df.rows.filter (fun r => cellAt r i == staff_member)).length := by
                have hcm2 := hcm
                unfold getColumn at hcm2
                cases hci : indexOfCol COMMENTS_COL df.cols with
                | none =>
                  rw [hci] at hcm2
                  cases hcm2
                | some ci =>
                  rw [hci] at hcm2
                  have := Option.some.inj hcm2
                  rw [← this, List.length_map]
              refine ⟨?_, ?_, ?_, ?_⟩
              · rw [hgen, hcomments]
                show some doc.commentItems = some commentVals
                rw [hitems]
              · rw [hgen, hcomments]
                show some doc.placeholderShown = some commentVals.isEmpty
                rw [hph]
              · rw [hcomments, hfr]
                exact hlen
              · rw [hfr]
                intro hnil
                exact hempty (by rw [hnil]; rfl)

set_option maxRecDepth 16384 in
/-- Witness for C9 (amended) at the sample table. -/
theorem c9_comments_section_witness :
    outcomeCommentItems (generate_docx_report sampleCampusDF "X")
        = some (commentsOf sampleCampusDF "X") ∧
      outcomePlaceholder (generate_docx_report sampleCampusDF "X")
        = some (commentsOf sampleCampusDF "X").isEmpty ∧
      (commentsOf sampleCampusDF "X").length = (filteredRows sampleCampusDF "X").length ∧
      filteredRows sampleCampusDF "X" ≠ [] :=
  c9_comments_section sampleCampusDF "X" (by decide)

/- Header deduplication (claim C8).  The suffix `f"{header}_{count}"` is
injective in (header, count) because the decimal digits contain no
underscore, so the part after the last underscore determines the count. -/

theorem digitChar_ne_underscore (m : Nat) : ¬ Nat.digitChar m = '_' := by
  by_cases h : m < 16
  · interval_cases m <;> decide
  · intro hc
    unfold Nat.digitChar at hc
    repeat rw [if_neg (by omega)] at hc
    exact absurd hc (by decide)

theorem decDigitsAux_ne_underscore (fuel : Nat) :
    ∀ (n : Nat) (c : Char), c ∈ decDigitsAux fuel n → ¬ c = '_' := by
  induction fuel with
  | zero => intro n c hc; cases hc
  | succ fuel ih =>
    intro n c hc
    by_cases h10 : n < 10
    · simp only [decDigitsAux, if_pos h10] at hc
      rcases List.mem_cons.1 hc with hh | hh
      · rw [hh]; exact digitChar_ne_underscore n
      · cases hh
    · simp only [decDigitsAux, if_neg h10] at hc
      rcases List.mem_append.1 hc with hh | hh
      · exact ih (n / 10) c hh
      · rcases List.mem_cons.1 hh with hh2 | hh2
        · rw [hh2]; exact digitChar_ne_underscore (n % 10)
        · cases hh2

theorem parse_decDigitsAux (fuel : Nat) :
    ∀ (n a : Nat), n < fuel →
      (decDigitsAux fuel n).foldl (fun acc c => acc * 10 + (c.toNat - 48)) a
        = a * 10 ^ (decDigitsAux fuel n).length + n := by
  induction fuel with
  | zero => intro n a h; exact absurd h (Nat.not_lt_zero n)
  | succ fuel ih =>
    intro n a h
    by_cases h10 : n < 10
    · simp only [decDigitsAux, if_pos h10]
      have hd : (Nat.digitChar n).toNat - 48 = n := by interval_cases n <;> decide
      simp [List.foldl, hd]
    · simp only [decDigitsAux, if_neg h10]
      have hrec : n / 10 < fuel := by
        have h1 : 0 < n := by omega
        have h2 := Nat.div_lt_self h1 (by norm_num : 1 < 10)
        omega
      rw [List.foldl_append, ih (n / 10) a hrec]
      have hd : (Nat.digitChar (n % 10)).toNat - 48 = n % 10 := by
        have hm : n % 10 < 10 := Nat.mod_lt _ (by norm_num)
        interval_cases hc : n % 10 <;> decide
      simp only [List.foldl, hd, List.length_append, List.length_cons, List.length_nil]
      have hdm := Nat.div_add_mod n 10
      rw [Nat.zero_add, pow_succ]
      have hassoc : a * (10 ^ (decDigitsAux fuel (n / 10)).length * 10)
          = (a * 10 ^ (decDigitsAux fuel (n / 10)).length) * 10 := by ring
      rw [hassoc]
      omega

theorem natToDec_inj {m n : Nat} (h : natToDec m = natToDec n) : m = n := by
  have hd : decDigitsAux (m + 1) m = decDigitsAux (n + 1) n := congrArg String.data h
  have h1 := parse_decDigitsAux (m + 1) m 0 (Nat.lt_succ_self m)
  have h2 := parse_decDigitsAux (n + 1) n 0 (Nat.lt_succ_self n)
  rw [hd] at h1
  rw [Nat.zero_mul, Nat.zero_add] at h1 h2
  exact h1.symm.trans h2

theorem stringDataInj {s t : String} (h : s.data = t.data) : s = t := by
  cases s
  cases t
  exact congrArg String.mk h

theorem underscore_split {x : List Char} :
    ∀ {y u v : List Char}, '_' ∉ x → '_' ∉ y →
      x ++ '_' :: u = y ++ '_' :: v → x = y ∧ u = v := by
  induction x with
  | nil =>
    intro y u v _ hy h
    cases y with
    | nil => simpa using h
    | cons b bs =>
      rw [List.nil_append, List.cons_append] at h
      have h1 : '_' = b := (List.cons.injEq _ _ _ _ ▸ h).1
      exact absurd (h1 ▸ List.mem_cons_self b bs) hy
  | cons a as ih =>
    intro y u v hx hy h
    cases y with
    | nil =>
      rw [List.cons_append, List.nil_append] at h
      have h1 : a = '_' := (List.cons.injEq _ _ _ _ ▸ h).1
      exact absurd (h1 ▸ List.mem_cons_self a as) hx
    | cons b bs =>
      rw [List.cons_append, List.cons_append] at h
      have h1 := (List.cons.injEq _ _ _ _ ▸ h).1
      have h2 := (List.cons.injEq _ _ _ _ ▸ h).2
      have hxs : '_' ∉ as := fun hc => hx (List.mem_cons_of_mem a hc)
      have hys : '_' ∉ bs := fun hc => hy (List.mem_cons_of_mem b hc)
      obtain ⟨hl, hr⟩ := ih hxs hys h2
      exact ⟨by rw [h1, hl], hr⟩

theorem suffix_inj {h1 h2 : String} {c1 c2 : Nat}
    (e : h1 ++ "_" ++ natToDec c1 = h2 ++ "_" ++ natToDec c2) : h1 = h2 ∧ c1 = c2 := by
  have hdata := congrArg String.data e
  have hd1 : (h1 ++ "_" ++ natToDec c1).data = h1.data ++ '_' :: (natToDec c1).data := by
    simp [String.data_append]
  have hd2 : (h2 ++ "_" ++ natToDec c2).data = h2.data ++ '_' :: (natToDec c2).data := by
    simp [String.data_append]
  rw [hd1, hd2] at hdata
  have hrev := congrArg List.reverse hdata
  simp only [List.reverse_append, List.reverse_cons, List.append_assoc,
    List.singleton_append] at hrev
  have hu1 : '_' ∉ (natToDec c1).data.reverse := fun hc =>
    decDigitsAux_ne_underscore (c1 + 1) c1 '_' (List.mem_reverse.1 hc) rfl
  have hu2 : '_' ∉ (natToDec c2).data.reverse := fun hc =>
    decDigitsAux_ne_underscore (c2 + 1) c2 '_' (List.mem_reverse.1 hc) rfl
  obtain ⟨hds, hhs⟩ := underscore_split hu1 hu2 hrev
  refine ⟨stringDataInj (List.reverse_injective hhs), ?_⟩
  exact natToDec_inj (stringDataInj (List.reverse_injective hds))

theorem count_append_singleton (done : List String) (h h2 : String) :
    (done ++ [h]).count h2 = done.count h2 + (if h = h2 then 1 else 0) := by
  rw [List.count_append]
  by_cases he : h = h2 <;> simp [List.count_cons, he]

theorem make_unique_eq_renamed :
    ∀ (rest : List String) (m : List (String × Nat)) (done : List String),
      (∀ h : String,
        dictLookup h m = if done.count h = 0 then none else some (done.count h - 1)) →
      make_unique_headers rest m = renamedHeaders done rest := by
  intro rest
  induction rest with
  | nil => intro m done _; rfl
  | cons h rest ih =>
    intro m done hrep
    have hl := hrep h
    by_cases hc : done.count h = 0
    · rw [if_pos hc] at hl
      simp only [make_unique_headers]
      rw [hl]
      show h :: make_unique_headers rest (dictInsert m h 0) = renamedHeaders done (h :: rest)
      simp only [renamedHeaders]
      congr 1
      · unfold headerEmit
        rw [if_pos hc]
      · apply ih
        intro h2
        rw [dictLookup_dictInsert, count_append_singleton]
        by_cases he : h = h2
        · subst he
          rw [if_pos rfl, if_pos rfl, hc]
          simp
        · rw [if_neg he, if_neg he, Nat.add_zero]
          exact hrep h2
    · rw [if_neg hc] at hl
      simp only [make_unique_headers]
      rw [hl]
      show (h ++ "_" ++ natToDec (done.count h - 1 + 1))
          :: make_unique_headers rest (dictInsert m h (done.count h - 1 + 1))
        = renamedHeaders done (h :: rest)
      simp only [renamedHeaders]
      congr 1
      · unfold headerEmit
        rw [if_neg hc]
        have he1 : done.count h - 1 + 1 = done.count h := by omega
        rw [he1]
      · apply ih
        intro h2
        rw [dictLookup_dictInsert, count_append_singleton]
        by_cases he : h = h2
        · subst he
          rw [if_pos rfl, if_pos rfl]
          have he2 : ¬ done.count h + 1 = 0 := by omega
          rw [if_neg he2]
          congr 1
          omega
        · rw [if_neg he, if_neg he, Nat.add_zero]
          exact hrep h2

theorem mem_renamedHeaders :
    ∀ (rest done : List String) (x : String),
      x ∈ renamedHeaders done rest →
      ∃ h2, h2 ∈ rest ∧ ∃ mid : List String, x = headerEmit (done ++ mid) h2 := by
  intro rest
  induction rest with
  | nil => intro done x hx; cases hx
  | cons h rest ih =>
    intro done x hx
    rcases List.mem_cons.1 hx with hh | hh
    · exact ⟨h, List.mem_cons_self _ _, [], by simpa using hh⟩
    · obtain ⟨h2, hmem, mid, hx2⟩ := ih (done ++ [h]) x hh
      refine ⟨h2, List.mem_cons_of_mem _ hmem, [h] ++ mid, ?_⟩
      rw [hx2, List.append_assoc]

theorem headerEmit_inj {d1 d2 : List String} {h1 h2 : String}
    (hf1 : ∀ n : Nat, ¬ h1 = h2 ++ "_" ++ natToDec n)
    (hf2 : ∀ n : Nat, ¬ h2 = h1 ++ "_" ++ natToDec n)
    (he : headerEmit d1 h1 = headerEmit d2 h2) :
    h1 = h2 ∧ d1.count h1 = d2.count h2 := by
  unfold headerEmit at he
  by_cases hc1 : d1.count h1 = 0 <;> by_cases hc2 : d2.count h2 = 0
  · rw [if_pos hc1, if_pos hc2] at he
    exact ⟨he, by rw [hc1, hc2]⟩
  · rw [if_pos hc1, if_neg hc2] at he
    exact absurd he (hf1 _)
  · rw [if_neg hc1, if_pos hc2] at he
    exact absurd he.symm (hf2 _)
  · rw [if_neg hc1, if_neg hc2] at he
    obtain ⟨hh, hcc⟩ := suffix_inj he
    exact ⟨hh, hcc⟩

theorem renamedHeaders_nodup (headers : List String)
    (hfresh : ∀ h1 ∈ headers, ∀ h2 ∈ headers, ∀ n : Nat, ¬ h1 = h2 ++ "_" ++ natToDec n) :
    ∀ (rest : List String), (∀ x ∈ rest, x ∈ headers) →
      ∀ done : List String, (renamedHeaders done rest).Nodup := by
  intro rest
  induction rest with
  | nil => intro _ done; exact List.nodup_nil
  | cons h rest ih =>
    intro hsub done
    simp only [renamedHeaders]
    rw [List.nodup_cons]
    constructor
    · intro hmem
      obtain ⟨h2, hmem2, mid, hx⟩ := mem_renamedHeaders rest (done ++ [h]) _ hmem
      have hh1 : h ∈ headers := hsub h (List.mem_cons_self _ _)
      have hh2 : h2 ∈ headers := hsub h2 (List.mem_cons_of_mem _ hmem2)
      obtain ⟨heq, hcnt⟩ := headerEmit_inj (hfresh h hh1 h2 hh2) (hfresh h2 hh2 h hh1) hx
      subst heq
      rw [List.append_assoc, List.count_append, List.singleton_append,
        List.count_cons] at hcnt
      simp only [beq_self_eq_true, if_true] at hcnt
      omega
    · exact ih (fun x hx => hsub x (List.mem_cons_of_mem _ hx)) (done ++ [h])

theorem renamedHeaders_length :
    ∀ (rest done : List String), (renamedHeaders done rest).length = rest.length := by
  intro rest
  induction rest with
  | nil => intro done; rfl
  | cons h rest ih =>
    intro done
    simp only [renamedHeaders, List.length_cons, ih]

theorem natToDec_length_pos (n : Nat) : 1 ≤ (natToDec n).length := by
  show 1 ≤ (decDigitsAux (n + 1) n).length
  by_cases h : n < 10
  · simp [decDigitsAux, h]
  · simp [decDigitsAux, h]

theorem ne_append_suffix_of_le {h1 h2 : String} (n : Nat)
    (hlen : h1.length ≤ h2.length + 1) : ¬ h1 = h2 ++ "_" ++ natToDec n := by
  intro h
  have hlg := congrArg String.length h
  rw [String.length_append, String.length_append] at hlg
  have hpos := natToDec_length_pos n
  have hu : ("_" : String).length = 1 := rfl
  omega

/-- C8 is false as stated: the staff ingestion path applies no
disambiguation, so duplicate raw headers survive it; and even on the
fixed-questionnaire path the suffixing scheme collides when a raw header
already carries a generated-looking name (`["A", "A_1", "A"]` becomes
`["A", "A_1", "A_1"]`). -/
theorem c8_unique_headers_counterexample :
    staff_ingest_headers ["A", "A"] = ["A", "A"] ∧
      ¬ (staff_ingest_headers ["A", "A"]).Nodup ∧
      make_unique_headers ["A", "A_1", "A"] [] = ["A", "A_1", "A_1"] ∧
      ¬ (make_unique_headers ["A", "A_1", "A"] []).Nodup := by decide

/-- C8 (amended): on the fixed-questionnaire ingestion path (`get_data`) the
n-th repeat occurrence of a duplicate raw header is rewritten to
`header_n`; provided no raw header equals another raw header followed by an
underscore and a decimal number, the resulting labels are pairwise distinct,
and the header row keeps its length.  (The staff ingestion path performs no
such disambiguation.) -/
theorem c8_unique_headers (headers : List String)
    (hfresh : ∀ h1 ∈ headers, ∀ h2 ∈ headers, ∀ n : Nat, ¬ h1 = h2 ++ "_" ++ natToDec n) :
    make_unique_headers headers [] = renamedHeaders [] headers ∧
      (make_unique_headers headers []).Nodup ∧
      (make_unique_headers headers []).length = headers.length := by
  have heq : make_unique_headers headers [] = renamedHeaders [] headers := by
    apply make_unique_eq_renamed headers [] []
    intro h
    simp [dictLookup]
  refine ⟨heq, ?_, ?_⟩
  · rw [heq]
    exact renamedHeaders_nodup headers hfresh headers (fun x hx => hx) []
  · rw [heq, renamedHeaders_length]

/-- Witness for C8 (amended) on a header row with one duplicate. -/
theorem c8_unique_headers_witness :
    make_unique_headers ["A", "B", "A"] [] = renamedHeaders [] ["A", "B", "A"] ∧
      (make_unique_headers ["A", "B", "A"] []).Nodup ∧
      (make_unique_headers ["A", "B", "A"] []).length
        = (["A", "B", "A"] : List String).length := by
  refine c8_unique_headers ["A", "B", "A"] ?_
  intro h1 hh1 h2 hh2 n
  apply ne_append_suffix_of_le
  have hl1 : h1.length = 1 := by
    simp only [List.mem_cons, List.not_mem_nil, or_false] at hh1
    rcases hh1 with rfl | rfl | rfl <;> rfl
  have hl2 : h2.length = 1 := by
    simp only [List.mem_cons, List.not_mem_nil, or_false] at hh2
    rcases hh2 with rfl | rfl | rfl <;> rfl
  omega

end BAJCReport
